import Mathlib

/-!
Shallow embedding of the rules/state engine of `chess_app.py`: board
representation, move generation (`calculate_valid_moves`), move application
(`move_piece`), castling-rights bookkeeping, terminal detection
(`check_for_checkmate`), and the click/selection protocol (`handle_click`).
Presentation code (rendering, images, event loop) is out of scope.

Modelling conventions:
- a board cell is a `Char` exactly as in the source (uppercase = white,
  `' '` = empty); a board is a total function `Int → Int → Char` and every
  access the source performs is guarded by `is_valid_position`, so values
  outside `[0,8)×[0,8)` are never read by the modelled operations when the
  arguments come from in-bounds clicks;
- Python exceptions (attribute errors on `None` pieces) are modelled by
  `handle_click` returning `none`; a normal return is `some state`;
- the source's `for i in range(1, BOARD_SIZE)` sliding loop is modelled by
  the structurally recursive `slide` with fuel `7`, stepping one square at
  a time from the current square (same visited squares, same stop rule).
-/

namespace Chess

/-- Side to move / winner color (the `'white'` / `'black'` strings of the source). -/
inductive Color where
  | white
  | black
  deriving DecidableEq, Repr

/-- The `self.castling_rights` dictionary: per-color kingside/queenside flags
plus the two `*_king_moved` flags. -/
structure CastlingRights where
  white_kingside : Bool
  white_queenside : Bool
  white_king_moved : Bool
  black_kingside : Bool
  black_queenside : Bool
  black_king_moved : Bool
  deriving DecidableEq, Repr

/-- One entry of `self.move_history` (`captured` is `' '` when the destination
square was empty, exactly as the source stores the raw cell content). -/
structure MoveRecord where
  piece : Char
  from_sq : Int × Int
  to_sq : Int × Int
  captured : Char
  deriving DecidableEq, Repr

/-- The 8×8 grid of cell characters, as a total function on integer coordinates. -/
abbrev Board := Int → Int → Char

/-- The mutable fields of `ChessGame` that belong to the rules engine. -/
structure GameState where
  board : Board
  selected_piece : Option (Int × Int)
  turn : Color
  valid_moves : List (Int × Int)
  game_over : Bool
  winner : Option Color
  check : Bool
  castling_rights : CastlingRights
  move_history : List MoveRecord

/-- The `INITIAL_BOARD` literal of the source. -/
def INITIAL_BOARD_ROWS : List (List Char) :=
  [['r', 'n', 'b', 'q', 'k', 'b', 'n', 'r'],
   ['p', 'p', 'p', 'p', 'p', 'p', 'p', 'p'],
   [' ', ' ', ' ', ' ', ' ', ' ', ' ', ' '],
   [' ', ' ', ' ', ' ', ' ', ' ', ' ', ' '],
   [' ', ' ', ' ', ' ', ' ', ' ', ' ', ' '],
   [' ', ' ', ' ', ' ', ' ', ' ', ' ', ' '],
   ['P', 'P', 'P', 'P', 'P', 'P', 'P', 'P'],
   ['R', 'N', 'B', 'Q', 'K', 'B', 'N', 'R']]

/-- The initial board as a cell function (cells outside the grid read `' '`;
the modelled operations never look at them). -/
def INITIAL_BOARD : Board := fun row col =>
  if 0 ≤ row ∧ row < 8 ∧ 0 ≤ col ∧ col < 8 then
    (INITIAL_BOARD_ROWS.getD row.toNat []).getD col.toNat ' '
  else ' '

/-- `ChessGame.reset_game`. -/
def reset_game : GameState where
  board := INITIAL_BOARD
  selected_piece := none
  turn := Color.white
  valid_moves := []
  game_over := false
  winner := none
  check := false
  castling_rights :=
    { white_kingside := true, white_queenside := true, white_king_moved := false,
      black_kingside := true, black_queenside := true, black_king_moved := false }
  move_history := []

/-- `ChessGame.is_piece_white` (`piece.isupper()`). -/
def is_piece_white (piece : Char) : Bool := piece.isUpper

/-- `ChessGame.is_valid_position`. -/
def is_valid_position (row col : Int) : Prop :=
  0 ≤ row ∧ row < 8 ∧ 0 ≤ col ∧ col < 8

instance (row col : Int) : Decidable (is_valid_position row col) :=
  inferInstanceAs (Decidable (0 ≤ row ∧ row < 8 ∧ 0 ≤ col ∧ col < 8))

/-- `ChessGame.get_piece_at`: `None` outside the board, the raw cell otherwise. -/
def get_piece_at (b : Board) (row col : Int) : Option Char :=
  if is_valid_position row col then some (b row col) else none

/-- A single cell assignment `self.board[row][col] = p`. -/
def boardSet (b : Board) (row col : Int) (p : Char) : Board :=
  fun r c => if r = row ∧ c = col then p else b r c

/-- One sliding direction of the rook/bishop/queen loops: the source iterates
`i = 1..7` from the origin and stops at the edge or at the first occupied
square (included only when enemy-occupied). -/
def slide (b : Board) (iw : Bool) (row col dr dc : Int) : Nat → List (Int × Int)
  | 0 => []
  | fuel + 1 =>
    let r := row + dr
    let c := col + dc
    if is_valid_position r c then
      if b r c = ' ' then (r, c) :: slide b iw r c dr dc fuel
      else if iw ≠ is_piece_white (b r c) then [(r, c)] else []
    else []

def rook_directions : List (Int × Int) := [(0, 1), (1, 0), (0, -1), (-1, 0)]

def bishop_directions : List (Int × Int) := [(1, 1), (1, -1), (-1, 1), (-1, -1)]

def knight_offsets : List (Int × Int) :=
  [(-2, -1), (-2, 1), (-1, -2), (-1, 2), (1, -2), (1, 2), (2, -1), (2, 1)]

def king_offsets : List (Int × Int) :=
  [(-1, -1), (-1, 0), (-1, 1), (0, -1), (0, 1), (1, -1), (1, 0), (1, 1)]

/-- The rook/bishop (and queen) sliding blocks of `calculate_valid_moves`. -/
def slideMoves (b : Board) (iw : Bool) (row col : Int) (dirs : List (Int × Int)) :
    List (Int × Int) :=
  dirs.flatMap fun d => slide b iw row col d.1 d.2 7

/-- The knight/king fixed-offset blocks of `calculate_valid_moves`:
a destination is kept when in-bounds and empty or enemy-occupied. -/
def offsetMoves (b : Board) (iw : Bool) (row col : Int) (offs : List (Int × Int)) :
    List (Int × Int) :=
  offs.filterMap fun d =>
    if is_valid_position (row + d.1) (col + d.2) then
      if b (row + d.1) (col + d.2) = ' ' ∨ iw ≠ is_piece_white (b (row + d.1) (col + d.2)) then
        some (row + d.1, col + d.2)
      else none
    else none

/-- The pawn block of `calculate_valid_moves`: forward one if empty (the
double step, nested inside that branch, additionally needs the start rank and
an empty landing square), plus the two diagonal captures. -/
def pawnMoves (b : Board) (iw : Bool) (row col : Int) : List (Int × Int) :=
  let direction : Int := if iw then -1 else 1
  (if is_valid_position (row + direction) col ∧ b (row + direction) col = ' ' then
    (row + direction, col) ::
      (if ((iw = true ∧ row = 6) ∨ (iw = false ∧ row = 1)) ∧
          b (row + 2 * direction) col = ' ' then
        [(row + 2 * direction, col)]
      else [])
  else [])
  ++ ([-1, 1] : List Int).filterMap fun c_offset =>
    if is_valid_position (row + direction) (col + c_offset) then
      if b (row + direction) (col + c_offset) ≠ ' ' ∧
          iw ≠ is_piece_white (b (row + direction) (col + c_offset)) then
        some (row + direction, col + c_offset)
      else none
    else none

/-- The castling block of `calculate_valid_moves`: guarded by the king-moved
flag, the side's right, the emptiness of the intervening squares
(`range(5,7)` resp. `range(1,4)`) and the rook character on the corner. -/
def castleMoves (cr : CastlingRights) (b : Board) (iw : Bool) : List (Int × Int) :=
  if iw = true ∧ cr.white_king_moved = false then
    (if cr.white_kingside = true ∧ (b 7 5 = ' ' ∧ b 7 6 = ' ') ∧ b 7 7 = 'R' then
      [((7 : Int), (6 : Int))]
    else [])
    ++ (if cr.white_queenside = true ∧ (b 7 1 = ' ' ∧ b 7 2 = ' ' ∧ b 7 3 = ' ') ∧ b 7 0 = 'R' then
      [((7 : Int), (2 : Int))]
    else [])
  else if iw = false ∧ cr.black_king_moved = false then
    (if cr.black_kingside = true ∧ (b 0 5 = ' ' ∧ b 0 6 = ' ') ∧ b 0 7 = 'r' then
      [((0 : Int), (6 : Int))]
    else [])
    ++ (if cr.black_queenside = true ∧ (b 0 1 = ' ' ∧ b 0 2 = ' ' ∧ b 0 3 = ' ') ∧ b 0 0 = 'r' then
      [((0 : Int), (2 : Int))]
    else [])
  else []

/-- `ChessGame.calculate_valid_moves` (the source appends block after block
into one list; the blocks are mutually exclusive except that the queen takes
both sliding blocks). -/
def calculate_valid_moves (cr : CastlingRights) (b : Board) (row col : Int) :
    List (Int × Int) :=
  let piece := b row col
  if piece = ' ' then []
  else
    let iw := is_piece_white piece
    (if piece.toUpper = 'P' then pawnMoves b iw row col else [])
    ++ (if piece.toUpper = 'R' ∨ piece.toUpper = 'Q' then
      slideMoves b iw row col rook_directions
    else [])
    ++ (if piece.toUpper = 'B' ∨ piece.toUpper = 'Q' then
      slideMoves b iw row col bishop_directions
    else [])
    ++ (if piece.toUpper = 'N' then offsetMoves b iw row col knight_offsets else [])
    ++ (if piece.toUpper = 'K' then
      offsetMoves b iw row col king_offsets ++ castleMoves cr b iw
    else [])

/-- `any('K' in row for row in self.board)`: scan of the 64 grid cells. -/
def king_exists (b : Board) (k : Char) : Bool :=
  (List.range 8).any fun r => (List.range 8).any fun c => b (r : Int) (c : Int) == k

/-- `ChessGame.check_for_checkmate`: the white-absent test runs first. -/
def check_for_checkmate (g : GameState) : GameState :=
  if king_exists g.board 'K' = false then
    { g with game_over := true, winner := some Color.black }
  else if king_exists g.board 'k' = false then
    { g with game_over := true, winner := some Color.white }
  else g

/-- `ChessGame.move_piece`, with the source's exact order of effects: history
append, castling rook relocation, king-moved flag, rook-origin rights update,
promotion, board update (`to` then `from`), turn switch, terminal recheck. -/
def move_piece (g : GameState) (from_row from_col to_row to_col : Int) : GameState :=
  let piece := g.board from_row from_col
  let captured_piece := g.board to_row to_col
  let history := g.move_history ++
    [{ piece := piece, from_sq := (from_row, from_col), to_sq := (to_row, to_col),
       captured := captured_piece }]
  let b1 :=
    if piece.toUpper = 'K' ∧ (from_col - to_col).natAbs = 2 then
      let rook_row : Int := if is_piece_white piece then 7 else 0
      if to_col = 6 then
        boardSet (boardSet g.board rook_row 5 (g.board rook_row 7)) rook_row 7 ' '
      else if to_col = 2 then
        boardSet (boardSet g.board rook_row 3 (g.board rook_row 0)) rook_row 0 ' '
      else g.board
    else g.board
  let cr1 :=
    if piece.toUpper = 'K' then
      if is_piece_white piece then { g.castling_rights with white_king_moved := true }
      else { g.castling_rights with black_king_moved := true }
    else g.castling_rights
  let cr2 :=
    if piece.toUpper = 'R' then
      if is_piece_white piece then
        if from_row = 7 ∧ from_col = 0 then { cr1 with white_queenside := false }
        else if from_row = 7 ∧ from_col = 7 then { cr1 with white_kingside := false }
        else cr1
      else
        if from_row = 0 ∧ from_col = 0 then { cr1 with black_queenside := false }
        else if from_row = 0 ∧ from_col = 7 then { cr1 with black_kingside := false }
        else cr1
    else cr1
  let placed :=
    if piece.toUpper = 'P' ∧ (to_row = 0 ∨ to_row = 7) then
      if is_piece_white piece then 'Q' else 'q'
    else piece
  let b2 := boardSet (boardSet b1 to_row to_col placed) from_row from_col ' '
  let next_turn := if g.turn = Color.white then Color.black else Color.white
  check_for_checkmate
    { g with board := b2, castling_rights := cr2, move_history := history, turn := next_turn }

/-- The own-piece test the source writes twice inside `handle_click`. -/
def is_own_piece (turn : Color) (piece : Char) : Prop :=
  piece ≠ ' ' ∧ ((turn = Color.white ∧ is_piece_white piece = true) ∨
    (turn = Color.black ∧ is_piece_white piece = false))

instance (turn : Color) (piece : Char) : Decidable (is_own_piece turn piece) :=
  inferInstanceAs (Decidable (_ ∧ _))

/-- `ChessGame.handle_click`. The `none` result models the attribute error the
source raises when it evaluates `is_piece_white(None)` after an out-of-bounds
click; every other path returns the updated state. -/
def handle_click (g : GameState) (row col : Int) : Option GameState :=
  if g.game_over = true then some g
  else
    let pieceOpt := get_piece_at g.board row col
    match g.selected_piece with
    | some sel =>
      if (row, col) ∈ g.valid_moves then
        some { move_piece g sel.1 sel.2 row col with
          selected_piece := none
          valid_moves := [] }
      else
        match pieceOpt with
        | none => none
        | some piece =>
          if is_own_piece g.turn piece then
            some { g with
              selected_piece := some (row, col)
              valid_moves := calculate_valid_moves g.castling_rights g.board row col }
          else
            some { g with selected_piece := none, valid_moves := [] }
    | none =>
      match pieceOpt with
      | none => none
      | some piece =>
        if is_own_piece g.turn piece then
          some { g with
            selected_piece := some (row, col)
            valid_moves := calculate_valid_moves g.castling_rights g.board row col }
        else some g

/-- Spec-side description of the pawn destinations, written from the spec's
words (§4.2 Pawn: forward one if empty; forward two from the starting rank,
row 6 for White and row 1 for Black, if both squares ahead are empty; diagonal
capture only onto an in-bounds opposite-color piece; no en-passant), for the
refinement comparison with the pawn block of `calculate_valid_moves`. -/
def pawn_dests_spec (b : Board) (iw : Bool) (row col r c : Int) : Prop :=
  let d : Int := if iw then -1 else 1
  ((r, c) = (row + d, col) ∧ is_valid_position (row + d) col ∧ b (row + d) col = ' ')
  ∨ ((r, c) = (row + 2 * d, col) ∧ (if iw then row = 6 else row = 1) ∧
      b (row + d) col = ' ' ∧ b (row + 2 * d) col = ' ')
  ∨ (∃ off : Int, (off = -1 ∨ off = 1) ∧ (r, c) = (row + d, col + off) ∧
      is_valid_position (row + d) (col + off) ∧ b (row + d) (col + off) ≠ ' ' ∧
      is_piece_white (b (row + d) (col + off)) ≠ iw)

/-- Decidable statement that `sq` is the only in-bounds square holding the
character `k` (used to phrase king-capture hypotheses on concrete boards). -/
def only_king_at (b : Board) (k : Char) (sq : Int × Int) : Bool :=
  (List.range 8).all fun r => (List.range 8).all fun c =>
    decide (b (r : Int) (c : Int) = k → ((r : Int), (c : Int)) = sq)

/-- The initial position with the squares between the white king and the
kingside rook cleared (concrete castling scenario). -/
def castle_test : GameState :=
  { reset_game with board := boardSet (boardSet INITIAL_BOARD 7 5 ' ') 7 6 ' ' }

/-- A board with every cell empty. -/
def empty_board : Board := fun _ _ => ' '

/-- A three-piece position: white king (7,4), black king (0,4), white queen
(1,4) ready to capture the black king (concrete king-capture scenario). -/
def capture_test : GameState :=
  { reset_game with
    board := boardSet (boardSet (boardSet empty_board 7 4 'K') 0 4 'k') 1 4 'Q' }

/-- The initial position with an extra white pawn on (1,0), one step from
promotion (concrete promotion scenario). -/
def promo_test : GameState :=
  { reset_game with board := boardSet INITIAL_BOARD 1 0 'P' }

/-! ### Helper lemmas -/

lemma char_isUpper_toNat {p : Char} (h : p.isUpper = true) :
    65 ≤ p.toNat ∧ p.toNat ≤ 90 := by
  simp only [Char.isUpper, Bool.and_eq_true, decide_eq_true_eq] at h
  exact ⟨UInt32.le_toNat_of_le (by norm_num) h.1, UInt32.toNat_le_of_le (by norm_num) h.2⟩

lemma char_toUpper_of_isUpper {p : Char} (h : p.isUpper = true) : p.toUpper = p := by
  have hn := char_isUpper_toNat h
  unfold Char.toUpper
  rw [if_neg (by omega)]

lemma char_toNat_ofNat {n : Nat} (h : n.isValidChar) : (Char.ofNat n).toNat = n := by
  unfold Char.ofNat
  rw [dif_pos h]
  unfold Char.ofNatAux
  simp [Char.toNat, UInt32.toNat]

lemma char_toUpper_eq_cases {p q : Char} (h : p.toUpper = q) :
    p = q ∨ p.toNat = q.toNat + 32 := by
  unfold Char.toUpper at h
  by_cases hc : 97 ≤ p.toNat ∧ p.toNat ≤ 122
  · rw [if_pos hc] at h
    right
    have hv : (p.toNat - 32).isValidChar := Or.inl (by omega)
    have h2 := congrArg Char.toNat h
    rw [char_toNat_ofNat hv] at h2
    omega
  · rw [if_neg hc] at h
    exact Or.inl h

lemma char_eq_of_toNat {p : Char} {n : Nat} (h : p.toNat = n) : p = Char.ofNat n := by
  rw [← h, Char.ofNat_toNat]

/-- The source's white-rook test `piece.upper() == 'R' and is_white` holds
exactly for the character `'R'`. -/
lemma white_rook_char {p : Char} :
    (p.toUpper = 'R' ∧ is_piece_white p = true) ↔ p = 'R' := by
  constructor
  · rintro ⟨h1, h2⟩
    rw [char_toUpper_of_isUpper h2] at h1
    exact h1
  · rintro rfl
    exact ⟨rfl, rfl⟩

/-- The source's black-rook test holds exactly for the character `'r'`. -/
lemma black_rook_char {p : Char} :
    (p.toUpper = 'R' ∧ is_piece_white p = false) ↔ p = 'r' := by
  constructor
  · rintro ⟨h1, h2⟩
    rcases char_toUpper_eq_cases h1 with h3 | h3
    · subst h3; simp [is_piece_white] at h2
    · have h4 := char_eq_of_toNat h3
      simpa using h4
  · rintro rfl
    exact ⟨rfl, rfl⟩

/-- The source's white-king test holds exactly for `'K'`. -/
lemma white_king_char {p : Char} :
    (p.toUpper = 'K' ∧ is_piece_white p = true) ↔ p = 'K' := by
  constructor
  · rintro ⟨h1, h2⟩
    rw [char_toUpper_of_isUpper h2] at h1
    exact h1
  · rintro rfl
    exact ⟨rfl, rfl⟩

/-- The source's black-king test holds exactly for `'k'`. -/
lemma black_king_char {p : Char} :
    (p.toUpper = 'K' ∧ is_piece_white p = false) ↔ p = 'k' := by
  constructor
  · rintro ⟨h1, h2⟩
    rcases char_toUpper_eq_cases h1 with h3 | h3
    · subst h3; simp [is_piece_white] at h2
    · have h4 := char_eq_of_toNat h3
      simpa using h4
  · rintro rfl
    exact ⟨rfl, rfl⟩

lemma boardSet_self (b : Board) (row col : Int) (p : Char) :
    boardSet b row col p row col = p := by
  simp [boardSet]

lemma boardSet_ne (b : Board) {row col r c : Int} (p : Char) (h : ¬(r = row ∧ c = col)) :
    boardSet b row col p r c = b r c := by
  simp [boardSet, h]

lemma cfc_board (g : GameState) : (check_for_checkmate g).board = g.board := by
  unfold check_for_checkmate; split_ifs <;> rfl

lemma cfc_turn (g : GameState) : (check_for_checkmate g).turn = g.turn := by
  unfold check_for_checkmate; split_ifs <;> rfl

lemma cfc_rights (g : GameState) :
    (check_for_checkmate g).castling_rights = g.castling_rights := by
  unfold check_for_checkmate; split_ifs <;> rfl

lemma cfc_history (g : GameState) :
    (check_for_checkmate g).move_history = g.move_history := by
  unfold check_for_checkmate; split_ifs <;> rfl

lemma cfc_white_absent {g : GameState} (h : king_exists g.board 'K' = false) :
    (check_for_checkmate g).game_over = true ∧
      (check_for_checkmate g).winner = some Color.black := by
  unfold check_for_checkmate
  rw [if_pos h]
  exact ⟨rfl, rfl⟩

lemma cfc_black_absent {g : GameState} (hK : king_exists g.board 'K' = true)
    (hk : king_exists g.board 'k' = false) :
    (check_for_checkmate g).game_over = true ∧
      (check_for_checkmate g).winner = some Color.white := by
  unfold check_for_checkmate
  rw [if_neg (by simp [hK]), if_pos hk]
  exact ⟨rfl, rfl⟩

lemma king_exists_true_iff (b : Board) (k : Char) :
    king_exists b k = true ↔ ∃ r c : Int, is_valid_position r c ∧ b r c = k := by
  simp only [king_exists, List.any_eq_true, List.mem_range, beq_iff_eq]
  constructor
  · rintro ⟨r, hr, c, hc, heq⟩
    refine ⟨r, c, ⟨by omega, by exact_mod_cast hr, by omega, by exact_mod_cast hc⟩, heq⟩
  · rintro ⟨r, c, hv, heq⟩
    obtain ⟨h1, h2, h3, h4⟩ := hv
    refine ⟨r.toNat, by omega, c.toNat, by omega, ?_⟩
    rwa [Int.toNat_of_nonneg h1, Int.toNat_of_nonneg h3]

lemma king_exists_false_iff (b : Board) (k : Char) :
    king_exists b k = false ↔ ∀ r c : Int, is_valid_position r c → b r c ≠ k := by
  rw [← Bool.not_eq_true, king_exists_true_iff]
  push_neg
  constructor
  · intro h r c hv
    exact h r c hv
  · intro h r c hv
    exact h r c hv

lemma only_king_at_spec {b : Board} {k : Char} {sq : Int × Int}
    (h : only_king_at b k sq = true) :
    ∀ r c : Int, is_valid_position r c → b r c = k → (r, c) = sq := by
  simp only [only_king_at, List.all_eq_true, List.mem_range, decide_eq_true_eq] at h
  intro r c hv hk
  obtain ⟨h1, h2, h3, h4⟩ := hv
  have h5 := h r.toNat (by omega) c.toNat (by omega)
  rw [Int.toNat_of_nonneg h1, Int.toNat_of_nonneg h3] at h5
  exact h5 hk

lemma boardSet_apply (b : Board) (row col r c : Int) (p : Char) :
    boardSet b row col p r c = if r = row ∧ c = col then p else b r c := rfl

lemma move_piece_turn (g : GameState) (fr fc tr tc : Int) :
    (move_piece g fr fc tr tc).turn =
      (if g.turn = Color.white then Color.black else Color.white) := by
  simp only [move_piece, cfc_turn]

lemma move_piece_history (g : GameState) (fr fc tr tc : Int) :
    (move_piece g fr fc tr tc).move_history =
      g.move_history ++
        [{ piece := g.board fr fc, from_sq := (fr, fc), to_sq := (tr, tc),
           captured := g.board tr tc }] := by
  simp only [move_piece, cfc_history]

/-- The board produced by `move_piece`, read off the definition (castling rook
relocation, then promotion choice, then the `to` and `from` writes). -/
lemma move_piece_board (g : GameState) (fr fc tr tc : Int) :
    (move_piece g fr fc tr tc).board =
      (let piece := g.board fr fc
       let b1 :=
         if piece.toUpper = 'K' ∧ (fc - tc).natAbs = 2 then
           let rook_row : Int := if is_piece_white piece then 7 else 0
           if tc = 6 then
             boardSet (boardSet g.board rook_row 5 (g.board rook_row 7)) rook_row 7 ' '
           else if tc = 2 then
             boardSet (boardSet g.board rook_row 3 (g.board rook_row 0)) rook_row 0 ' '
           else g.board
         else g.board
       let placed :=
         if piece.toUpper = 'P' ∧ (tr = 0 ∨ tr = 7) then
           if is_piece_white piece then 'Q' else 'q'
         else piece
       boardSet (boardSet b1 tr tc placed) fr fc ' ') := by
  simp only [move_piece, cfc_board]

lemma move_piece_no_white_king {g : GameState} {fr fc tr tc : Int}
    (h : king_exists (move_piece g fr fc tr tc).board 'K' = false) :
    (move_piece g fr fc tr tc).game_over = true ∧
      (move_piece g fr fc tr tc).winner = some Color.black := by
  unfold move_piece at *
  rw [cfc_board] at h
  exact cfc_white_absent h

lemma move_piece_no_black_king {g : GameState} {fr fc tr tc : Int}
    (hK : king_exists (move_piece g fr fc tr tc).board 'K' = true)
    (hk : king_exists (move_piece g fr fc tr tc).board 'k' = false) :
    (move_piece g fr fc tr tc).game_over = true ∧
      (move_piece g fr fc tr tc).winner = some Color.white := by
  unfold move_piece at *
  rw [cfc_board] at hK hk
  exact cfc_black_absent hK hk

/-- A white piece landing on the square of the only black king leaves a board
with no `'k'` cell: the `from` square is cleared, the `to` square now holds an
uppercase character, and the castling rook relocation can only copy from a
corner square, which is not the `to` square. -/
lemma capture_removes_black_king {g : GameState} {fr fc tr tc : Int}
    (h2 : is_piece_white (g.board fr fc) = true)
    (h5 : only_king_at g.board 'k' (tr, tc) = true) :
    king_exists (move_piece g fr fc tr tc).board 'k' = false := by
  have huniq := only_king_at_spec h5
  rw [king_exists_false_iff]
  intro r c hv hk
  rw [move_piece_board] at hk
  simp only [h2, if_true] at hk
  rw [boardSet_apply] at hk
  by_cases e1 : r = fr ∧ c = fc
  · rw [if_pos e1] at hk
    exact absurd hk (by decide)
  · rw [if_neg e1] at hk
    rw [boardSet_apply] at hk
    by_cases e2 : r = tr ∧ c = tc
    · rw [if_pos e2] at hk
      split_ifs at hk with hp
      · exact absurd hk (by decide)
      · rw [hk] at h2
        exact absurd h2 (by decide)
    · rw [if_neg e2] at hk
      have hlast : g.board r c = 'k' → False := by
        intro h9
        have h8 := huniq r c hv h9
        rw [Prod.mk.injEq] at h8
        exact e2 ⟨h8.1, h8.2⟩
      by_cases hcast : (g.board fr fc).toUpper = 'K' ∧ (fc - tc).natAbs = 2
      · rw [if_pos hcast] at hk
        by_cases h6 : tc = 6
        · rw [if_pos h6] at hk
          rw [boardSet_apply] at hk
          by_cases eA : r = 7 ∧ c = 7
          · rw [if_pos eA] at hk
            exact absurd hk (by decide)
          · rw [if_neg eA] at hk
            rw [boardSet_apply] at hk
            by_cases eB : r = 7 ∧ c = 5
            · rw [if_pos eB] at hk
              have h8 := huniq 7 7 (by decide) hk
              rw [Prod.mk.injEq] at h8
              omega
            · rw [if_neg eB] at hk
              exact hlast hk
        · rw [if_neg h6] at hk
          by_cases h7 : tc = 2
          · rw [if_pos h7] at hk
            rw [boardSet_apply] at hk
            by_cases eA : r = 7 ∧ c = 0
            · rw [if_pos eA] at hk
              exact absurd hk (by decide)
            · rw [if_neg eA] at hk
              rw [boardSet_apply] at hk
              by_cases eB : r = 7 ∧ c = 3
              · rw [if_pos eB] at hk
                have h8 := huniq 7 0 (by decide) hk
                rw [Prod.mk.injEq] at h8
                omega
              · rw [if_neg eB] at hk
                exact hlast hk
          · rw [if_neg h7] at hk
            exact hlast hk
      · rw [if_neg hcast] at hk
        exact hlast hk

lemma cvm_white_pawn {cr : CastlingRights} {b : Board} {row col : Int}
    (h : b row col = 'P') :
    calculate_valid_moves cr b row col = pawnMoves b true row col := by
  simp [calculate_valid_moves, h, show is_piece_white 'P' = true from rfl]

lemma cvm_black_pawn {cr : CastlingRights} {b : Board} {row col : Int}
    (h : b row col = 'p') :
    calculate_valid_moves cr b row col = pawnMoves b false row col := by
  simp [calculate_valid_moves, h, show is_piece_white 'p' = false from rfl]

lemma cvm_white_king {cr : CastlingRights} {b : Board} {row col : Int}
    (h : b row col = 'K') :
    calculate_valid_moves cr b row col =
      offsetMoves b true row col king_offsets ++ castleMoves cr b true := by
  simp [calculate_valid_moves, h, show is_piece_white 'K' = true from rfl]

lemma cvm_black_king {cr : CastlingRights} {b : Board} {row col : Int}
    (h : b row col = 'k') :
    calculate_valid_moves cr b row col =
      offsetMoves b false row col king_offsets ++ castleMoves cr b false := by
  simp [calculate_valid_moves, h, show is_piece_white 'k' = false from rfl]

lemma pawnMoves_mem_iff_black {b : Board} {row col : Int}
    (h1 : 0 ≤ col) (h2 : col < 8) (r c : Int) :
    ((r, c) ∈ pawnMoves b false row col ↔ pawn_dests_spec b false row col r c) := by
  simp only [pawnMoves, pawn_dests_spec, if_false, Bool.false_eq_true, false_and,
    false_or, true_and, and_true, eq_self_iff_true, if_true, List.mem_append,
    List.mem_filterMap]
  constructor
  · rintro (hm | hm)
    · split_ifs at hm with hC1 hC2
      · simp only [List.mem_cons, List.not_mem_nil, or_false] at hm
        rcases hm with hm | hm
        · exact Or.inl ⟨hm, hC1.1, hC1.2⟩
        · exact Or.inr (Or.inl ⟨hm, hC2.1, hC1.2, hC2.2⟩)
      · simp only [List.mem_cons, List.not_mem_nil, or_false] at hm
        exact Or.inl ⟨hm, hC1.1, hC1.2⟩
      · simp at hm
    · obtain ⟨off, hoff, hf⟩ := hm
      split_ifs at hf with hA hB
      · simp only [Option.some.injEq] at hf
        refine Or.inr (Or.inr ⟨off, by simpa using hoff, hf.symm, hA, hB.1, ?_⟩)
        exact fun hEq => hB.2 hEq.symm
  · rintro (⟨heq, hva, hsp⟩ | ⟨heq, hrow, hsp1, hsp2⟩ |
      ⟨off, hoff, heq, hva, hne, hcol⟩)
    · left
      rw [if_pos ⟨hva, hsp⟩]
      rw [heq]
      exact List.mem_cons_self _ _
    · left
      have hva : is_valid_position (row + 1) col := by
        unfold is_valid_position
        omega
      rw [if_pos ⟨hva, hsp1⟩]
      refine List.mem_cons_of_mem _ ?_
      rw [if_pos ⟨hrow, hsp2⟩]
      simp [heq]
    · right
      refine ⟨off, by simpa using hoff, ?_⟩
      rw [if_pos hva, if_pos ⟨hne, fun hEq => hcol hEq.symm⟩, heq]

lemma pawnMoves_mem_iff_white {b : Board} {row col : Int}
    (h1 : 0 ≤ col) (h2 : col < 8) (r c : Int) :
    ((r, c) ∈ pawnMoves b true row col ↔ pawn_dests_spec b true row col r c) := by
  simp only [pawnMoves, pawn_dests_spec, if_true, Bool.true_eq_false, false_and,
    or_false, true_and, and_true, eq_self_iff_true, List.mem_append,
    List.mem_filterMap]
  constructor
  · rintro (hm | hm)
    · split_ifs at hm with hC1 hC2
      · simp only [List.mem_cons, List.not_mem_nil, or_false] at hm
        rcases hm with hm | hm
        · exact Or.inl ⟨hm, hC1.1, hC1.2⟩
        · exact Or.inr (Or.inl ⟨hm, hC2.1, hC1.2, hC2.2⟩)
      · simp only [List.mem_cons, List.not_mem_nil, or_false] at hm
        exact Or.inl ⟨hm, hC1.1, hC1.2⟩
      · simp at hm
    · obtain ⟨off, hoff, hf⟩ := hm
      split_ifs at hf with hA hB
      · simp only [Option.some.injEq] at hf
        refine Or.inr (Or.inr ⟨off, by simpa using hoff, hf.symm, hA, hB.1, ?_⟩)
        exact fun hEq => hB.2 hEq.symm
  · rintro (⟨heq, hva, hsp⟩ | ⟨heq, hrow, hsp1, hsp2⟩ |
      ⟨off, hoff, heq, hva, hne, hcol⟩)
    · left
      rw [if_pos ⟨hva, hsp⟩]
      rw [heq]
      exact List.mem_cons_self _ _
    · left
      have hva : is_valid_position (row + -1) col := by
        unfold is_valid_position
        omega
      rw [if_pos ⟨hva, hsp1⟩]
      refine List.mem_cons_of_mem _ ?_
      rw [if_pos ⟨hrow, hsp2⟩]
      simp [heq]
    · right
      refine ⟨off, by simpa using hoff, ?_⟩
      rw [if_pos hva, if_pos ⟨hne, fun hEq => hcol hEq.symm⟩, heq]

lemma pawnMoves_mem_iff {b : Board} {iw : Bool} {row col : Int}
    (h1 : 0 ≤ col) (h2 : col < 8) (r c : Int) :
    ((r, c) ∈ pawnMoves b iw row col ↔ pawn_dests_spec b iw row col r c) := by
  cases iw
  · exact pawnMoves_mem_iff_black h1 h2 r c
  · exact pawnMoves_mem_iff_white h1 h2 r c

lemma slide_sound (fuel : Nat) :
    ∀ (b : Board) (iw : Bool) (row col dr dc r c : Int),
      (r, c) ∈ slide b iw row col dr dc fuel →
      is_valid_position r c ∧ (b r c = ' ' ∨ iw ≠ is_piece_white (b r c)) := by
  induction fuel with
  | zero =>
    intro b iw row col dr dc r c h
    simp [slide] at h
  | succ n ih =>
    intro b iw row col dr dc r c h
    rw [slide] at h
    split_ifs at h with hv he hc
    · simp only [List.mem_cons] at h
      rcases h with h | h
      · rw [Prod.mk.injEq] at h
        obtain ⟨rfl, rfl⟩ := h
        exact ⟨hv, Or.inl he⟩
      · exact ih b iw _ _ dr dc r c h
    · simp only [List.mem_singleton] at h
      rw [Prod.mk.injEq] at h
      obtain ⟨rfl, rfl⟩ := h
      exact ⟨hv, Or.inr hc⟩
    · simp at h
    · simp at h

lemma offsetMoves_sound {b : Board} {iw : Bool} {row col : Int}
    {offs : List (Int × Int)} {r c : Int}
    (h : (r, c) ∈ offsetMoves b iw row col offs) :
    is_valid_position r c ∧ (b r c = ' ' ∨ iw ≠ is_piece_white (b r c)) := by
  simp only [offsetMoves, List.mem_filterMap] at h
  obtain ⟨d, hd, hf⟩ := h
  split_ifs at hf with hv hc
  simp only [Option.some.injEq, Prod.mk.injEq] at hf
  obtain ⟨rfl, rfl⟩ := hf
  exact ⟨hv, hc⟩

lemma offsetMoves_square {b : Board} {iw : Bool} {row col : Int}
    {offs : List (Int × Int)} {r c : Int}
    (h : (r, c) ∈ offsetMoves b iw row col offs) :
    ∃ d ∈ offs, (r, c) = (row + d.1, col + d.2) := by
  simp only [offsetMoves, List.mem_filterMap] at h
  obtain ⟨d, hd, hf⟩ := h
  split_ifs at hf with hv hc
  simp only [Option.some.injEq] at hf
  exact ⟨d, hd, hf.symm⟩

lemma castleMoves_mem_iff {cr : CastlingRights} {b : Board} {iw : Bool} {r c : Int} :
    ((r, c) ∈ castleMoves cr b iw ↔
      (iw = true ∧ cr.white_king_moved = false ∧
        (((r, c) = ((7 : Int), (6 : Int)) ∧ cr.white_kingside = true ∧
            b 7 5 = ' ' ∧ b 7 6 = ' ' ∧ b 7 7 = 'R') ∨
         ((r, c) = ((7 : Int), (2 : Int)) ∧ cr.white_queenside = true ∧
            b 7 1 = ' ' ∧ b 7 2 = ' ' ∧ b 7 3 = ' ' ∧ b 7 0 = 'R'))) ∨
      (iw = false ∧ cr.black_king_moved = false ∧
        (((r, c) = ((0 : Int), (6 : Int)) ∧ cr.black_kingside = true ∧
            b 0 5 = ' ' ∧ b 0 6 = ' ' ∧ b 0 7 = 'r') ∨
         ((r, c) = ((0 : Int), (2 : Int)) ∧ cr.black_queenside = true ∧
            b 0 1 = ' ' ∧ b 0 2 = ' ' ∧ b 0 3 = ' ' ∧ b 0 0 = 'r')))) := by
  unfold castleMoves
  split_ifs with h1 h2 <;>
    cases iw <;>
    simp_all [List.mem_append]

lemma castleMoves_sound {cr : CastlingRights} {b : Board} {iw : Bool} {r c : Int}
    (h : (r, c) ∈ castleMoves cr b iw) :
    is_valid_position r c ∧ b r c = ' ' := by
  rw [castleMoves_mem_iff] at h
  rcases h with ⟨_, _, (⟨heq, _, _, h6, _⟩ | ⟨heq, _, _, h6, _, _⟩)⟩ |
    ⟨_, _, (⟨heq, _, _, h6, _⟩ | ⟨heq, _, _, h6, _, _⟩)⟩ <;>
    (rw [Prod.mk.injEq] at heq; obtain ⟨rfl, rfl⟩ := heq) <;>
    exact ⟨by decide, h6⟩

lemma pawnMoves_sound {b : Board} {iw : Bool} {row col r c : Int}
    (h1 : 0 ≤ col) (h2 : col < 8)
    (h : (r, c) ∈ pawnMoves b iw row col) :
    is_valid_position r c ∧ (b r c = ' ' ∨ iw ≠ is_piece_white (b r c)) := by
  rw [pawnMoves_mem_iff h1 h2] at h
  unfold pawn_dests_spec at h
  rcases h with ⟨heq, hva, hsp⟩ | ⟨heq, hrow, hsp1, hsp2⟩ |
    ⟨off, hoff, heq, hva, hne, hcol⟩ <;>
    (rw [Prod.mk.injEq] at heq; obtain ⟨rfl, rfl⟩ := heq)
  · exact ⟨hva, Or.inl hsp⟩
  · refine ⟨?_, Or.inl hsp2⟩
    cases iw
    · replace hrow : row = 1 := by simpa using hrow
      unfold is_valid_position
      simp only [Bool.false_eq_true, if_false]
      omega
    · replace hrow : row = 6 := by simpa using hrow
      unfold is_valid_position
      simp only [eq_self_iff_true, if_true]
      omega
  · exact ⟨hva, Or.inr fun hEq => hcol hEq.symm⟩

lemma cvm_sound {cr : CastlingRights} {b : Board} {row col r c : Int}
    (hv : is_valid_position row col)
    (h : (r, c) ∈ calculate_valid_moves cr b row col) :
    is_valid_position r c ∧
      (b r c = ' ' ∨ is_piece_white (b r c) ≠ is_piece_white (b row col)) := by
  obtain ⟨hr1, hr2, hc1, hc2⟩ := hv
  simp only [calculate_valid_moves] at h
  by_cases hsp : b row col = ' '
  · rw [if_pos hsp] at h
    simp at h
  · rw [if_neg hsp] at h
    simp only [List.mem_append] at h
    rcases h with ((((h | h) | h) | h) | h)
    · split_ifs at h with hk
      · obtain ⟨ha, hb⟩ := pawnMoves_sound hc1 hc2 h
        exact ⟨ha, hb.imp id fun hne => Ne.symm hne⟩
      · simp at h
    · split_ifs at h with hk
      · simp only [slideMoves, List.mem_flatMap] at h
        obtain ⟨d, _, h⟩ := h
        obtain ⟨ha, hb⟩ := slide_sound 7 b _ row col d.1 d.2 r c h
        exact ⟨ha, hb.imp id fun hne => Ne.symm hne⟩
      · simp at h
    · split_ifs at h with hk
      · simp only [slideMoves, List.mem_flatMap] at h
        obtain ⟨d, _, h⟩ := h
        obtain ⟨ha, hb⟩ := slide_sound 7 b _ row col d.1 d.2 r c h
        exact ⟨ha, hb.imp id fun hne => Ne.symm hne⟩
      · simp at h
    · split_ifs at h with hk
      · obtain ⟨ha, hb⟩ := offsetMoves_sound h
        exact ⟨ha, hb.imp id fun hne => Ne.symm hne⟩
      · simp at h
    · split_ifs at h with hk
      · rcases List.mem_append.1 h with h | h
        · obtain ⟨ha, hb⟩ := offsetMoves_sound h
          exact ⟨ha, hb.imp id fun hne => Ne.symm hne⟩
        · obtain ⟨ha, hb⟩ := castleMoves_sound h
          exact ⟨ha, Or.inl hb⟩
      · simp at h

lemma cvm_not_mem_self {cr : CastlingRights} {b : Board} {row col : Int}
    (hv : is_valid_position row col) :
    (row, col) ∉ calculate_valid_moves cr b row col := by
  intro h
  by_cases hsp : b row col = ' '
  · simp only [calculate_valid_moves] at h
    rw [if_pos hsp] at h
    simp at h
  · rcases (cvm_sound hv h).2 with h3 | h3
    · exact hsp h3
    · exact h3 rfl

/-! ### Claim theorems -/

/-- C8: after `reset_game` the board is the standard starting position (in
particular a white king on (7,4) and a black king on (0,4)), the side to move
is White, the history is empty, nothing is selected, all castling rights are
true with both king-moved flags false, and the game is not over with no
winner. -/
theorem c8_initial_state :
    get_piece_at reset_game.board 7 4 = some 'K' ∧
    get_piece_at reset_game.board 0 4 = some 'k' ∧
    reset_game.turn = Color.white ∧
    reset_game.move_history = [] ∧
    reset_game.selected_piece = none ∧
    reset_game.castling_rights =
      { white_kingside := true, white_queenside := true, white_king_moved := false,
        black_kingside := true, black_queenside := true, black_king_moved := false } ∧
    reset_game.game_over = false ∧
    reset_game.winner = none ∧
    (List.range 8).map (fun c => reset_game.board 0 (c : Int)) =
      ['r', 'n', 'b', 'q', 'k', 'b', 'n', 'r'] ∧
    (List.range 8).map (fun c => reset_game.board 1 (c : Int)) = List.replicate 8 'p' ∧
    (∀ r ∈ ([2, 3, 4, 5] : List Nat),
      (List.range 8).map (fun c => reset_game.board (r : Int) (c : Int)) =
        List.replicate 8 ' ') ∧
    (List.range 8).map (fun c => reset_game.board 6 (c : Int)) = List.replicate 8 'P' ∧
    (List.range 8).map (fun c => reset_game.board 7 (c : Int)) =
      ['R', 'N', 'B', 'Q', 'K', 'B', 'N', 'R'] := by
  decide

/-- C8 witness: the row-emptiness conjunct applied at the concrete rank 4. -/
theorem c8_initial_state_witness :
    (List.range 8).map (fun c => reset_game.board ((4 : Nat) : Int) (c : Int)) =
      List.replicate 8 ' ' :=
  c8_initial_state.2.2.2.2.2.2.2.2.2.2.1 4 (by decide)

/-- C9: `get_piece_at` itself validates the coordinates: it returns the
distinguished `none` (the source's `None`) exactly when the square is outside
`[0,8)×[0,8)`, and an ordinary cell value (possibly the empty-square
character) for every in-bounds square. -/
theorem c9_piece_at_bounds (b : Board) (row col : Int) :
    (¬is_valid_position row col → get_piece_at b row col = none) ∧
    (is_valid_position row col → get_piece_at b row col = some (b row col)) ∧
    (get_piece_at b row col = none ↔ ¬is_valid_position row col) := by
  refine ⟨fun h => by simp [get_piece_at, h], fun h => by simp [get_piece_at, h], ?_⟩
  constructor
  · intro h hv
    rw [get_piece_at, if_pos hv] at h
    exact Option.noConfusion h
  · intro h
    simp [get_piece_at, h]

/-- C9 witness: the out-of-range square (8,0) yields `none`, the in-bounds
square (0,0) yields its cell. -/
theorem c9_piece_at_bounds_witness :
    get_piece_at INITIAL_BOARD 8 0 = none ∧
      get_piece_at INITIAL_BOARD 0 0 = some (INITIAL_BOARD 0 0) :=
  ⟨(c9_piece_at_bounds INITIAL_BOARD 8 0).1 (by decide),
   (c9_piece_at_bounds INITIAL_BOARD 0 0).2.1 (by decide)⟩

/-- C2: after every `move_piece` the side to move flips unconditionally, and
the terminal state is recomputed by scanning the resulting board: if White's
king is absent the game is over with winner Black (this branch is evaluated
first, so it also decides the both-kings-absent case deterministically);
otherwise if Black's king is absent the game is over with winner White; and a
white move landing on the square of the only black king ends the game with the
moving side (White) as winner. -/
theorem c2_turn_flip_and_terminal (g : GameState) (fr fc tr tc : Int) :
    (move_piece g fr fc tr tc).turn =
      (if g.turn = Color.white then Color.black else Color.white) ∧
    (king_exists (move_piece g fr fc tr tc).board 'K' = false →
      (move_piece g fr fc tr tc).game_over = true ∧
      (move_piece g fr fc tr tc).winner = some Color.black) ∧
    (king_exists (move_piece g fr fc tr tc).board 'K' = true →
      king_exists (move_piece g fr fc tr tc).board 'k' = false →
      (move_piece g fr fc tr tc).game_over = true ∧
      (move_piece g fr fc tr tc).winner = some Color.white) ∧
    (g.board tr tc = 'k' →
      is_piece_white (g.board fr fc) = true →
      only_king_at g.board 'k' (tr, tc) = true →
      king_exists (move_piece g fr fc tr tc).board 'K' = true →
      (move_piece g fr fc tr tc).game_over = true ∧
      (move_piece g fr fc tr tc).winner = some Color.white) := by
  refine ⟨move_piece_turn g fr fc tr tc, fun h => move_piece_no_white_king h,
    fun hK hk => move_piece_no_black_king hK hk, fun _ h2 h5 hK => ?_⟩
  exact move_piece_no_black_king hK (capture_removes_black_king h2 h5)

/-- C2 witness: in the three-piece position the white queen captures the black
king on (0,4); the game ends with winner White and the turn still flips. -/
theorem c2_turn_flip_and_terminal_witness :
    (move_piece capture_test 1 4 0 4).game_over = true ∧
      (move_piece capture_test 1 4 0 4).winner = some Color.white :=
  (c2_turn_flip_and_terminal capture_test 1 4 0 4).2.2.2 (by decide) (by decide)
    (by decide) (by decide)

/-- C7: a pawn moved to row 0 or row 7 is replaced on the destination square
by a queen of the mover's color (unconditionally), while the appended
MoveRecord still stores the pre-promotion pawn character and the destination
square's prior occupant. -/
theorem c7_promotion_and_record (g : GameState) (fr fc tr tc : Int)
    (hp : g.board fr fc = 'P' ∨ g.board fr fc = 'p')
    (hrow : tr = 0 ∨ tr = 7)
    (hne : ¬(tr = fr ∧ tc = fc)) :
    (move_piece g fr fc tr tc).board tr tc =
      (if is_piece_white (g.board fr fc) = true then 'Q' else 'q') ∧
    (move_piece g fr fc tr tc).move_history =
      g.move_history ++
        [{ piece := g.board fr fc, from_sq := (fr, fc), to_sq := (tr, tc),
           captured := g.board tr tc }] := by
  refine ⟨?_, move_piece_history g fr fc tr tc⟩
  rw [move_piece_board]
  simp only []
  rcases hp with hP | hP <;>
    rw [hP] <;>
    rw [if_neg (by rintro ⟨h, _⟩; exact absurd h (by decide))] <;>
    rw [if_pos ⟨by decide, hrow⟩] <;>
    rw [boardSet_apply, if_neg hne, boardSet_apply, if_pos ⟨rfl, rfl⟩]

/-- C7 witness: the extra white pawn on (1,0) captures the knight on (0,1) and
promotes; the record stores the pawn and the captured knight. -/
theorem c7_promotion_and_record_witness :
    (move_piece promo_test 1 0 0 1).board 0 1 =
      (if is_piece_white (promo_test.board 1 0) = true then 'Q' else 'q') ∧
    (move_piece promo_test 1 0 0 1).move_history =
      promo_test.move_history ++
        [{ piece := promo_test.board 1 0, from_sq := ((1 : Int), (0 : Int)),
           to_sq := ((0 : Int), (1 : Int)), captured := promo_test.board 0 1 }] :=
  c7_promotion_and_record promo_test 1 0 0 1 (Or.inl (by decide)) (Or.inl rfl)
    (by decide)

lemma king_offsets_small {d : Int × Int} (hd : d ∈ king_offsets) :
    d.1.natAbs ≤ 1 ∧ d.2.natAbs ≤ 1 := by
  simp only [king_offsets, List.mem_cons, List.not_mem_nil, or_false] at hd
  rcases hd with rfl | rfl | rfl | rfl | rfl | rfl | rfl | rfl <;>
    exact ⟨by decide, by decide⟩

lemma castle_target_not_adjacent {b : Board} {iw : Bool} {row col r c : Int}
    (h : (r, c) ∈ offsetMoves b iw row col king_offsets)
    (hc : (c - col).natAbs = 2) : False := by
  obtain ⟨d, hd, heq⟩ := offsetMoves_square h
  obtain ⟨_, hd2⟩ := king_offsets_small hd
  rw [Prod.mk.injEq] at heq
  obtain ⟨h1, h2⟩ := heq
  omega

/-- C4: castling-destination generation for a king on its home square whose
king-moved flag is false: column 6 is generated exactly when that side's
kingside right is true, the two squares between king and rook are empty, and
the matching-color rook character sits on the column-7 corner; column 2
exactly when the queenside right is true, the three intervening squares are
empty, and the rook sits on the column-0 corner. No condition about attacked
squares appears in either characterization. -/
theorem c4_castle_generation (b : Board) (cr : CastlingRights) :
    (b 7 4 = 'K' → cr.white_king_moved = false →
      ((((7 : Int), (6 : Int)) ∈ calculate_valid_moves cr b 7 4) ↔
        (cr.white_kingside = true ∧ b 7 5 = ' ' ∧ b 7 6 = ' ' ∧ b 7 7 = 'R')) ∧
      ((((7 : Int), (2 : Int)) ∈ calculate_valid_moves cr b 7 4) ↔
        (cr.white_queenside = true ∧ b 7 1 = ' ' ∧ b 7 2 = ' ' ∧ b 7 3 = ' ' ∧
          b 7 0 = 'R'))) ∧
    (b 0 4 = 'k' → cr.black_king_moved = false →
      ((((0 : Int), (6 : Int)) ∈ calculate_valid_moves cr b 0 4) ↔
        (cr.black_kingside = true ∧ b 0 5 = ' ' ∧ b 0 6 = ' ' ∧ b 0 7 = 'r')) ∧
      ((((0 : Int), (2 : Int)) ∈ calculate_valid_moves cr b 0 4) ↔
        (cr.black_queenside = true ∧ b 0 1 = ' ' ∧ b 0 2 = ' ' ∧ b 0 3 = ' ' ∧
          b 0 0 = 'r'))) := by
  constructor
  · intro hK hmv
    rw [cvm_white_king hK]
    constructor
    · constructor
      · intro h
        rcases List.mem_append.1 h with h | h
        · exact (castle_target_not_adjacent h (by decide)).elim
        · rw [castleMoves_mem_iff] at h
          rcases h with ⟨_, _, (⟨_, hks, h5, h6, h7⟩ | ⟨heq, _⟩)⟩ | ⟨hf, _⟩
          · exact ⟨hks, h5, h6, h7⟩
          · exact absurd heq (by decide)
          · exact absurd hf (by decide)
      · rintro ⟨hks, h5, h6, h7⟩
        refine List.mem_append_right _ ?_
        rw [castleMoves_mem_iff]
        exact Or.inl ⟨rfl, hmv, Or.inl ⟨rfl, hks, h5, h6, h7⟩⟩
    · constructor
      · intro h
        rcases List.mem_append.1 h with h | h
        · exact (castle_target_not_adjacent h (by decide)).elim
        · rw [castleMoves_mem_iff] at h
          rcases h with ⟨_, _, (⟨heq, _⟩ | ⟨_, hqs, h1, h2, h3, h0⟩)⟩ | ⟨hf, _⟩
          · exact absurd heq (by decide)
          · exact ⟨hqs, h1, h2, h3, h0⟩
          · exact absurd hf (by decide)
      · rintro ⟨hqs, h1, h2, h3, h0⟩
        refine List.mem_append_right _ ?_
        rw [castleMoves_mem_iff]
        exact Or.inl ⟨rfl, hmv, Or.inr ⟨rfl, hqs, h1, h2, h3, h0⟩⟩
  · intro hK hmv
    rw [cvm_black_king hK]
    constructor
    · constructor
      · intro h
        rcases List.mem_append.1 h with h | h
        · exact (castle_target_not_adjacent h (by decide)).elim
        · rw [castleMoves_mem_iff] at h
          rcases h with ⟨hf, _⟩ | ⟨_, _, (⟨_, hks, h5, h6, h7⟩ | ⟨heq, _⟩)⟩
          · exact absurd hf (by decide)
          · exact ⟨hks, h5, h6, h7⟩
          · exact absurd heq (by decide)
      · rintro ⟨hks, h5, h6, h7⟩
        refine List.mem_append_right _ ?_
        rw [castleMoves_mem_iff]
        exact Or.inr ⟨rfl, hmv, Or.inl ⟨rfl, hks, h5, h6, h7⟩⟩
    · constructor
      · intro h
        rcases List.mem_append.1 h with h | h
        · exact (castle_target_not_adjacent h (by decide)).elim
        · rw [castleMoves_mem_iff] at h
          rcases h with ⟨hf, _⟩ | ⟨_, _, (⟨heq, _⟩ | ⟨_, hqs, h1, h2, h3, h0⟩)⟩
          · exact absurd hf (by decide)
          · exact absurd heq (by decide)
          · exact ⟨hqs, h1, h2, h3, h0⟩
      · rintro ⟨hqs, h1, h2, h3, h0⟩
        refine List.mem_append_right _ ?_
        rw [castleMoves_mem_iff]
        exact Or.inr ⟨rfl, hmv, Or.inr ⟨rfl, hqs, h1, h2, h3, h0⟩⟩

/-- C5: for every board and every in-bounds square holding a pawn, the
generated destinations are exactly those described by the spec: one step
forward onto an empty in-bounds square; two steps forward from the color's
starting rank (row 6 White, row 1 Black) when both squares ahead are empty;
and each in-bounds forward-diagonal square holding an opposite-color piece —
in particular no en-passant destination. Moreover, from the starting position
`selectOrMove (6,4)` then `selectOrMove (4,4)` moves the pawn from (6,4) to
(4,4) and flips the side to move to Black. -/
theorem c5_pawn_moves :
    (∀ (cr : CastlingRights) (b : Board) (row col : Int), is_valid_position row col →
      ∀ r c : Int,
        (b row col = 'P' →
          ((r, c) ∈ calculate_valid_moves cr b row col ↔
            pawn_dests_spec b true row col r c)) ∧
        (b row col = 'p' →
          ((r, c) ∈ calculate_valid_moves cr b row col ↔
            pawn_dests_spec b false row col r c))) ∧
    ((handle_click reset_game 6 4).bind (fun g1 => handle_click g1 4 4)).map
        (fun g2 => (g2.board 4 4, g2.board 6 4, g2.turn)) =
      some ('P', ' ', Color.black) := by
  constructor
  · intro cr b row col hv r c
    obtain ⟨h1, h2, h3, h4⟩ := hv
    constructor
    · intro hP
      rw [cvm_white_pawn hP, pawnMoves_mem_iff h3 h4]
    · intro hP
      rw [cvm_black_pawn hP, pawnMoves_mem_iff h3 h4]
  · decide

/-- C5 witness: the characterization instantiated at the initial board's
e-pawn and its single-step destination. -/
theorem c5_pawn_moves_witness :
    (((5 : Int), (4 : Int)) ∈
        calculate_valid_moves reset_game.castling_rights INITIAL_BOARD 6 4 ↔
      pawn_dests_spec INITIAL_BOARD true 6 4 5 4) :=
  (c5_pawn_moves.1 reset_game.castling_rights INITIAL_BOARD 6 4 (by decide) 5 4).1
    (by decide)

/-- C4 witness: in the cleared-kingside position both characterizations hold
concretely for White. -/
theorem c4_castle_generation_witness :
    ((((7 : Int), (6 : Int)) ∈
        calculate_valid_moves castle_test.castling_rights castle_test.board 7 4) ↔
      (castle_test.castling_rights.white_kingside = true ∧ castle_test.board 7 5 = ' ' ∧
        castle_test.board 7 6 = ' ' ∧ castle_test.board 7 7 = 'R')) ∧
    ((((7 : Int), (2 : Int)) ∈
        calculate_valid_moves castle_test.castling_rights castle_test.board 7 4) ↔
      (castle_test.castling_rights.white_queenside = true ∧ castle_test.board 7 1 = ' ' ∧
        castle_test.board 7 2 = ' ' ∧ castle_test.board 7 3 = ' ' ∧
        castle_test.board 7 0 = 'R')) :=
  (c4_castle_generation castle_test.board castle_test.castling_rights).1 (by decide)
    (by decide)

lemma handle_click_gameover {g : GameState} (row col : Int)
    (h : g.game_over = true) : handle_click g row col = some g := by
  unfold handle_click
  rw [if_pos h]

lemma handle_click_move {g : GameState} {sr sc row col : Int}
    (hgo : g.game_over = false) (hsel : g.selected_piece = some (sr, sc))
    (hmem : (row, col) ∈ g.valid_moves) :
    handle_click g row col =
      some { move_piece g sr sc row col with
        selected_piece := none, valid_moves := [] } := by
  unfold handle_click
  rw [if_neg (by rw [hgo]; exact Bool.false_ne_true), hsel]
  simp only [if_pos hmem]

lemma handle_click_reselect {g : GameState} {sr sc row col : Int}
    (hgo : g.game_over = false) (hsel : g.selected_piece = some (sr, sc))
    (hmem : (row, col) ∉ g.valid_moves) (hv : is_valid_position row col)
    (hown : is_own_piece g.turn (g.board row col)) :
    handle_click g row col =
      some { g with
        selected_piece := some (row, col)
        valid_moves := calculate_valid_moves g.castling_rights g.board row col } := by
  unfold handle_click
  rw [if_neg (by rw [hgo]; exact Bool.false_ne_true), hsel]
  simp only [if_neg hmem]
  rw [show get_piece_at g.board row col = some (g.board row col) from by
    simp [get_piece_at, hv]]
  simp only [if_pos hown]

lemma handle_click_deselect {g : GameState} {sr sc row col : Int}
    (hgo : g.game_over = false) (hsel : g.selected_piece = some (sr, sc))
    (hmem : (row, col) ∉ g.valid_moves) (hv : is_valid_position row col)
    (hown : ¬is_own_piece g.turn (g.board row col)) :
    handle_click g row col =
      some { g with selected_piece := none, valid_moves := [] } := by
  unfold handle_click
  rw [if_neg (by rw [hgo]; exact Bool.false_ne_true), hsel]
  simp only [if_neg hmem]
  rw [show get_piece_at g.board row col = some (g.board row col) from by
    simp [get_piece_at, hv]]
  simp only [if_neg hown]

lemma handle_click_idle_select {g : GameState} {row col : Int}
    (hgo : g.game_over = false) (hsel : g.selected_piece = none)
    (hv : is_valid_position row col)
    (hown : is_own_piece g.turn (g.board row col)) :
    handle_click g row col =
      some { g with
        selected_piece := some (row, col)
        valid_moves := calculate_valid_moves g.castling_rights g.board row col } := by
  unfold handle_click
  rw [if_neg (by rw [hgo]; exact Bool.false_ne_true), hsel]
  rw [show get_piece_at g.board row col = some (g.board row col) from by
    simp [get_piece_at, hv]]
  simp only [if_pos hown]

lemma handle_click_idle_noop {g : GameState} {row col : Int}
    (hgo : g.game_over = false) (hsel : g.selected_piece = none)
    (hv : is_valid_position row col)
    (hown : ¬is_own_piece g.turn (g.board row col)) :
    handle_click g row col = some g := by
  unfold handle_click
  rw [if_neg (by rw [hgo]; exact Bool.false_ne_true), hsel]
  rw [show get_piece_at g.board row col = some (g.board row col) from by
    simp [get_piece_at, hv]]
  simp only [if_neg hown]

lemma handle_click_total (g : GameState) {row col : Int}
    (hv : is_valid_position row col) :
    ∃ g2, handle_click g row col = some g2 := by
  by_cases hgo : g.game_over = true
  · exact ⟨g, handle_click_gameover row col hgo⟩
  · rw [Bool.not_eq_true] at hgo
    rcases hsel : g.selected_piece with _ | ⟨sr, sc⟩
    · by_cases hown : is_own_piece g.turn (g.board row col)
      · exact ⟨_, handle_click_idle_select hgo hsel hv hown⟩
      · exact ⟨g, handle_click_idle_noop hgo hsel hv hown⟩
    · by_cases hmem : (row, col) ∈ g.valid_moves
      · exact ⟨_, handle_click_move hgo hsel hmem⟩
      · by_cases hown : is_own_piece g.turn (g.board row col)
        · exact ⟨_, handle_click_reselect hgo hsel hmem hv hown⟩
        · exact ⟨_, handle_click_deselect hgo hsel hmem hv hown⟩

lemma move_piece_rights (g : GameState) (fr fc tr tc : Int) :
    (move_piece g fr fc tr tc).castling_rights =
      (let piece := g.board fr fc
       let cr1 :=
         if piece.toUpper = 'K' then
           if is_piece_white piece then { g.castling_rights with white_king_moved := true }
           else { g.castling_rights with black_king_moved := true }
         else g.castling_rights
       if piece.toUpper = 'R' then
         if is_piece_white piece then
           if fr = 7 ∧ fc = 0 then { cr1 with white_queenside := false }
           else if fr = 7 ∧ fc = 7 then { cr1 with white_kingside := false }
           else cr1
         else
           if fr = 0 ∧ fc = 0 then { cr1 with black_queenside := false }
           else if fr = 0 ∧ fc = 7 then { cr1 with black_kingside := false }
           else cr1
       else cr1) := by
  simp only [move_piece, cfc_rights]

lemma char_not_king_rook {p : Char} (h1 : p ≠ 'K') (h2 : p ≠ 'k') :
    p.toUpper ≠ 'K' := by
  intro h
  rcases char_toUpper_eq_cases h with h3 | h3
  · exact h1 h3
  · exact h2 (by simpa using char_eq_of_toNat h3)

lemma char_not_rook {p : Char} (h1 : p ≠ 'R') (h2 : p ≠ 'r') :
    p.toUpper ≠ 'R' := by
  intro h
  rcases char_toUpper_eq_cases h with h3 | h3
  · exact h1 h3
  · exact h2 (by simpa using char_eq_of_toNat h3)

lemma move_piece_rights_char (g : GameState) (fr fc tr tc : Int) :
    ((move_piece g fr fc tr tc).castling_rights.white_kingside = true ↔
      (g.castling_rights.white_kingside = true ∧
        ¬(g.board fr fc = 'R' ∧ fr = 7 ∧ fc = 7))) ∧
    ((move_piece g fr fc tr tc).castling_rights.white_queenside = true ↔
      (g.castling_rights.white_queenside = true ∧
        ¬(g.board fr fc = 'R' ∧ fr = 7 ∧ fc = 0))) ∧
    ((move_piece g fr fc tr tc).castling_rights.black_kingside = true ↔
      (g.castling_rights.black_kingside = true ∧
        ¬(g.board fr fc = 'r' ∧ fr = 0 ∧ fc = 7))) ∧
    ((move_piece g fr fc tr tc).castling_rights.black_queenside = true ↔
      (g.castling_rights.black_queenside = true ∧
        ¬(g.board fr fc = 'r' ∧ fr = 0 ∧ fc = 0))) ∧
    ((move_piece g fr fc tr tc).castling_rights.white_king_moved = true ↔
      (g.castling_rights.white_king_moved = true ∨ g.board fr fc = 'K')) ∧
    ((move_piece g fr fc tr tc).castling_rights.black_king_moved = true ↔
      (g.castling_rights.black_king_moved = true ∨ g.board fr fc = 'k')) := by
  rw [move_piece_rights]
  by_cases h1 : g.board fr fc = 'K'
  · simp [h1, show is_piece_white 'K' = true from rfl]
  · by_cases h2 : g.board fr fc = 'k'
    · simp [h2, show is_piece_white 'k' = false from rfl]
    · by_cases h3 : g.board fr fc = 'R'
      · simp only [h3, show is_piece_white 'R' = true from rfl,
          show (('R' : Char).toUpper = 'K') = False by simp, if_false,
          show (('R' : Char).toUpper = 'R') = True by simp, if_true,
          show (('R' : Char) = 'r') = False by simp, false_and, not_false_iff,
          and_true, eq_self_iff_true, true_and]
        split_ifs with e1 e2 <;> simp_all
      · by_cases h4 : g.board fr fc = 'r'
        · simp only [h4, show is_piece_white 'r' = false from rfl,
            show (('r' : Char).toUpper = 'K') = False by simp, if_false,
            show (('r' : Char).toUpper = 'R') = True by simp, if_true,
            show (('r' : Char) = 'R') = False by simp, false_and, not_false_iff,
            and_true, eq_self_iff_true, true_and,
            show (false = true) = False by simp]
          split_ifs with e1 e2 <;> simp_all
        · have hnK := char_not_king_rook h1 h2
          have hnR := char_not_rook h3 h4
          simp only [if_neg hnK, if_neg hnR]
          simp [h1, h2, h3, h4]

lemma handle_click_rights_cases {g : GameState} {row col : Int} {g2 : GameState}
    (h : handle_click g row col = some g2) :
    g2.castling_rights = g.castling_rights ∨
      ∃ sr sc, g2.castling_rights = (move_piece g sr sc row col).castling_rights := by
  unfold handle_click at h
  by_cases hgo : g.game_over = true
  · rw [if_pos hgo] at h
    cases h
    exact Or.inl rfl
  · rw [if_neg hgo] at h
    revert h
    rcases g.selected_piece with _ | ⟨sr, sc⟩ <;>
      rcases hp : get_piece_at g.board row col with _ | p <;>
      intro h <;>
      simp only [hp] at h
    · exact absurd h (by simp)
    · split_ifs at h <;> cases h <;> exact Or.inl rfl
    · split_ifs at h with hmem
      cases h
      exact Or.inr ⟨sr, sc, rfl⟩
    · split_ifs at h with hmem hown <;> cases h
      · exact Or.inr ⟨sr, sc, rfl⟩
      · exact Or.inl rfl
      · exact Or.inl rfl

/-- C6: castling-rights bookkeeping. For every single move: each of the four
side flags stays true iff it was true and the moving piece was not the
matching-color rook leaving that color's matching corner (so a capture landing
on a corner, or a non-rook leaving it, clears nothing, and flags only ever go
true to false); each king-moved flag becomes true iff it was already true or
the matching-color king is the moving piece. Through `handle_click` the four
rights are monotonically non-increasing and the king-moved flags
non-decreasing between resets. -/
theorem c6_rights_monotone :
    (∀ (g : GameState) (fr fc tr tc : Int),
      ((move_piece g fr fc tr tc).castling_rights.white_kingside = true ↔
        (g.castling_rights.white_kingside = true ∧
          ¬(g.board fr fc = 'R' ∧ fr = 7 ∧ fc = 7))) ∧
      ((move_piece g fr fc tr tc).castling_rights.white_queenside = true ↔
        (g.castling_rights.white_queenside = true ∧
          ¬(g.board fr fc = 'R' ∧ fr = 7 ∧ fc = 0))) ∧
      ((move_piece g fr fc tr tc).castling_rights.black_kingside = true ↔
        (g.castling_rights.black_kingside = true ∧
          ¬(g.board fr fc = 'r' ∧ fr = 0 ∧ fc = 7))) ∧
      ((move_piece g fr fc tr tc).castling_rights.black_queenside = true ↔
        (g.castling_rights.black_queenside = true ∧
          ¬(g.board fr fc = 'r' ∧ fr = 0 ∧ fc = 0))) ∧
      ((move_piece g fr fc tr tc).castling_rights.white_king_moved = true ↔
        (g.castling_rights.white_king_moved = true ∨ g.board fr fc = 'K')) ∧
      ((move_piece g fr fc tr tc).castling_rights.black_king_moved = true ↔
        (g.castling_rights.black_king_moved = true ∨ g.board fr fc = 'k'))) ∧
    (∀ (g : GameState) (row col : Int) (g2 : GameState),
      handle_click g row col = some g2 →
      (g2.castling_rights.white_kingside = true →
        g.castling_rights.white_kingside = true) ∧
      (g2.castling_rights.white_queenside = true →
        g.castling_rights.white_queenside = true) ∧
      (g2.castling_rights.black_kingside = true →
        g.castling_rights.black_kingside = true) ∧
      (g2.castling_rights.black_queenside = true →
        g.castling_rights.black_queenside = true) ∧
      (g.castling_rights.white_king_moved = true →
        g2.castling_rights.white_king_moved = true) ∧
      (g.castling_rights.black_king_moved = true →
        g2.castling_rights.black_king_moved = true)) := by
  refine ⟨fun g fr fc tr tc => move_piece_rights_char g fr fc tr tc, ?_⟩
  intro g row col g2 h
  rcases handle_click_rights_cases h with heq | ⟨sr, sc, heq⟩
  · rw [heq]
    exact ⟨id, id, id, id, id, id⟩
  · rw [heq]
    have hc := move_piece_rights_char g sr sc row col
    exact ⟨fun hh => (hc.1.mp hh).1, fun hh => (hc.2.1.mp hh).1,
      fun hh => (hc.2.2.1.mp hh).1, fun hh => (hc.2.2.2.1.mp hh).1,
      fun hh => hc.2.2.2.2.1.mpr (Or.inl hh),
      fun hh => hc.2.2.2.2.2.mpr (Or.inl hh)⟩

/-- C6 witness: instances of both parts at the double pawn move from the
initial position. -/
theorem c6_rights_monotone_witness :
    ((move_piece reset_game 6 4 4 4).castling_rights.white_kingside = true ↔
      (reset_game.castling_rights.white_kingside = true ∧
        ¬(reset_game.board 6 4 = 'R' ∧ (6 : Int) = 7 ∧ (4 : Int) = 7))) ∧
    (∃ g2, handle_click reset_game 6 4 = some g2 ∧
      (g2.castling_rights.white_kingside = true →
        reset_game.castling_rights.white_kingside = true)) := by
  refine ⟨(c6_rights_monotone.1 reset_game 6 4 4 4).1, ?_⟩
  obtain ⟨g2, hg⟩ := handle_click_total reset_game (by decide : is_valid_position 6 4)
  exact ⟨g2, hg, (c6_rights_monotone.2 reset_game 6 4 g2 hg).1⟩

lemma own_piece_same_color {turn : Color} {p q : Char}
    (hp : is_own_piece turn p) (hq : is_own_piece turn q) :
    is_piece_white p = is_piece_white q := by
  rcases hp.2 with ⟨ht1, hw1⟩ | ⟨ht1, hw1⟩ <;>
    rcases hq.2 with ⟨ht2, hw2⟩ | ⟨ht2, hw2⟩ <;>
    first
      | (rw [ht1] at ht2; exact Color.noConfusion ht2)
      | rw [hw1, hw2]

/-- C10: every destination produced by move generation from an in-bounds
origin is in-bounds and not occupied by a piece of the moving piece's color;
hence the origin square itself is never generated, and in the Selected state
(with the cached set coming from the selected own piece) a click on any square
holding a friendly piece always takes the reselect branch, never a move. -/
theorem c10_generated_targets :
    (∀ (cr : CastlingRights) (b : Board) (row col r c : Int),
      is_valid_position row col →
      (r, c) ∈ calculate_valid_moves cr b row col →
      is_valid_position r c ∧
        (b r c = ' ' ∨ is_piece_white (b r c) ≠ is_piece_white (b row col))) ∧
    (∀ (cr : CastlingRights) (b : Board) (row col : Int),
      is_valid_position row col →
      (row, col) ∉ calculate_valid_moves cr b row col) ∧
    (∀ (g : GameState) (sr sc row col : Int), g.game_over = false →
      g.selected_piece = some (sr, sc) → is_valid_position sr sc →
      g.valid_moves = calculate_valid_moves g.castling_rights g.board sr sc →
      is_own_piece g.turn (g.board sr sc) →
      is_valid_position row col → is_own_piece g.turn (g.board row col) →
      handle_click g row col =
        some { g with
          selected_piece := some (row, col)
          valid_moves := calculate_valid_moves g.castling_rights g.board row col }) := by
  refine ⟨fun cr b row col r c hv h => cvm_sound hv h,
    fun cr b row col hv => cvm_not_mem_self hv, ?_⟩
  intro g sr sc row col hgo hsel hvs hcache hown_sel hv hown
  have hmem : (row, col) ∉ g.valid_moves := by
    rw [hcache]
    intro hmem
    rcases (cvm_sound hvs hmem).2 with h3 | h3
    · exact hown.1 h3
    · exact h3 (own_piece_same_color hown hown_sel)
  exact handle_click_reselect hgo hsel hmem hv hown

/-- C10 witness: the generated pawn destination (5,4) from (6,4) on the
initial board is in-bounds and empty. -/
theorem c10_generated_targets_witness :
    is_valid_position 5 4 ∧
      (INITIAL_BOARD 5 4 = ' ' ∨
        is_piece_white (INITIAL_BOARD 5 4) ≠ is_piece_white (INITIAL_BOARD 6 4)) :=
  c10_generated_targets.1 reset_game.castling_rights INITIAL_BOARD 6 4 5 4
    (by decide) (by decide)

/-- C3: the Idle/Selected protocol of `handle_click`: with the game over every
click returns the state unchanged; in Selected, a click on a cached
destination applies the move and clears selection and cache; a click on a
friendly piece (not a cached destination) reselects with freshly generated
moves and no board change, and reselecting the already-selected square leaves
board, selection and cached set unchanged; any other in-bounds click
deselects with no board change; in Idle a friendly square selects and any
other in-bounds square is a no-op; and every in-bounds click returns `some`
state (no exception). -/
theorem c3_selection_protocol :
    (∀ (g : GameState) (row col : Int), g.game_over = true →
      handle_click g row col = some g) ∧
    (∀ (g : GameState) (sr sc row col : Int), g.game_over = false →
      g.selected_piece = some (sr, sc) → (row, col) ∈ g.valid_moves →
      handle_click g row col =
        some { move_piece g sr sc row col with
          selected_piece := none
          valid_moves := [] }) ∧
    (∀ (g : GameState) (sr sc row col : Int), g.game_over = false →
      g.selected_piece = some (sr, sc) → (row, col) ∉ g.valid_moves →
      is_valid_position row col → is_own_piece g.turn (g.board row col) →
      handle_click g row col =
        some { g with
          selected_piece := some (row, col)
          valid_moves := calculate_valid_moves g.castling_rights g.board row col }) ∧
    (∀ (g : GameState) (sr sc : Int), g.game_over = false →
      g.selected_piece = some (sr, sc) → is_valid_position sr sc →
      g.valid_moves = calculate_valid_moves g.castling_rights g.board sr sc →
      is_own_piece g.turn (g.board sr sc) →
      ∃ g2, handle_click g sr sc = some g2 ∧ g2.board = g.board ∧
        g2.selected_piece = g.selected_piece ∧ g2.valid_moves = g.valid_moves ∧
        g2.turn = g.turn ∧ g2.move_history = g.move_history) ∧
    (∀ (g : GameState) (sr sc row col : Int), g.game_over = false →
      g.selected_piece = some (sr, sc) → (row, col) ∉ g.valid_moves →
      is_valid_position row col → ¬is_own_piece g.turn (g.board row col) →
      handle_click g row col =
        some { g with selected_piece := none, valid_moves := [] }) ∧
    (∀ (g : GameState) (row col : Int), g.game_over = false →
      g.selected_piece = none → is_valid_position row col →
      (is_own_piece g.turn (g.board row col) →
        handle_click g row col =
          some { g with
            selected_piece := some (row, col)
            valid_moves := calculate_valid_moves g.castling_rights g.board row col }) ∧
      (¬is_own_piece g.turn (g.board row col) → handle_click g row col = some g)) ∧
    (∀ (g : GameState) (row col : Int), is_valid_position row col →
      ∃ g2, handle_click g row col = some g2) := by
  refine ⟨fun g row col h => handle_click_gameover row col h,
    fun g sr sc row col hgo hsel hmem => handle_click_move hgo hsel hmem,
    fun g sr sc row col hgo hsel hmem hv hown =>
      handle_click_reselect hgo hsel hmem hv hown,
    ?_,
    fun g sr sc row col hgo hsel hmem hv hown =>
      handle_click_deselect hgo hsel hmem hv hown,
    fun g row col hgo hsel hv =>
      ⟨fun hown => handle_click_idle_select hgo hsel hv hown,
       fun hown => handle_click_idle_noop hgo hsel hv hown⟩,
    fun g row col hv => handle_click_total g hv⟩
  intro g sr sc hgo hsel hvs hcache hown
  have hmem : (sr, sc) ∉ g.valid_moves := by
    rw [hcache]
    exact cvm_not_mem_self hvs
  refine ⟨_, handle_click_reselect hgo hsel hmem hvs hown, rfl, ?_, ?_, rfl, rfl⟩
  · rw [hsel]
  · rw [hcache]

/-- C3 witness: clicking (0,0) from the initial position returns normally. -/
theorem c3_selection_protocol_witness :
    ∃ g2, handle_click reset_game 0 0 = some g2 :=
  c3_selection_protocol.2.2.2.2.2.2 reset_game 0 0 (by decide)

/-- C1 (amended): with the White king on (7,4), the kingside rook on (7,7),
the two squares between them empty, the king-moved flag false and the kingside
right true, clicking the king and then (7,6) castles: the king lands on (7,6),
the rook on (7,5), squares (7,4) and (7,7) are cleared, and the white
king-moved flag becomes true, permanently disabling both White castling sides;
the kingside/queenside right flags themselves are left unchanged (they do not
become false, which corrects the claim as stated). -/
theorem c1_castling_amended (g : GameState)
    (hgo : g.game_over = false) (hsel : g.selected_piece = none)
    (hturn : g.turn = Color.white)
    (hK : g.board 7 4 = 'K') (h5 : g.board 7 5 = ' ') (h6 : g.board 7 6 = ' ')
    (h7 : g.board 7 7 = 'R')
    (hmv : g.castling_rights.white_king_moved = false)
    (hks : g.castling_rights.white_kingside = true) :
    ∃ g1 g2, handle_click g 7 4 = some g1 ∧ handle_click g1 7 6 = some g2 ∧
      g2.board 7 6 = 'K' ∧ g2.board 7 5 = 'R' ∧ g2.board 7 4 = ' ' ∧
      g2.board 7 7 = ' ' ∧
      g2.castling_rights.white_king_moved = true ∧
      g2.castling_rights.white_kingside = g.castling_rights.white_kingside ∧
      g2.castling_rights.white_queenside = g.castling_rights.white_queenside ∧
      g2.selected_piece = none := by
  have hown : is_own_piece g.turn (g.board 7 4) := by
    rw [hturn, hK]
    exact ⟨by decide, Or.inl ⟨rfl, rfl⟩⟩
  have hstep1 := handle_click_idle_select hgo hsel (by decide) hown
  set g1 : GameState :=
    { g with
      selected_piece := some ((7 : Int), (4 : Int))
      valid_moves := calculate_valid_moves g.castling_rights g.board 7 4 } with hg1
  have hmem : ((7 : Int), (6 : Int)) ∈ g1.valid_moves := by
    show _ ∈ calculate_valid_moves g.castling_rights g.board 7 4
    rw [cvm_white_king hK]
    refine List.mem_append_right _ ?_
    rw [castleMoves_mem_iff]
    exact Or.inl ⟨rfl, hmv, Or.inl ⟨rfl, hks, h5, h6, h7⟩⟩
  have hstep2 := handle_click_move (g := g1) (show g1.game_over = false from hgo)
    (show g1.selected_piece = some ((7 : Int), (4 : Int)) from rfl) hmem
  have hgb : g1.board = g.board := rfl
  have hboard : (move_piece g1 7 4 7 6).board =
      boardSet (boardSet (boardSet (boardSet g.board 7 5 'R') 7 7 ' ') 7 6 'K')
        7 4 ' ' := by
    rw [move_piece_board]
    simp only [hgb, hK, h7]
    norm_num [show (('K' : Char).toUpper = 'K') = True by simp,
      show is_piece_white 'K' = true from rfl,
      show (('K' : Char).toUpper = 'P') = False by simp]
    rw [h7]
  have hcr : (move_piece g1 7 4 7 6).castling_rights =
      { g.castling_rights with white_king_moved := true } := by
    rw [move_piece_rights]
    simp only [hgb, hK]
    norm_num [show (('K' : Char).toUpper = 'K') = True by simp,
      show is_piece_white 'K' = true from rfl,
      show (('K' : Char).toUpper = 'R') = False by simp]
  refine ⟨g1, _, hstep1, hstep2, ?_, ?_, ?_, ?_, ?_, ?_, ?_, rfl⟩
  · show (move_piece g1 7 4 7 6).board 7 6 = 'K'
    rw [hboard]
    simp [boardSet_apply]
  · show (move_piece g1 7 4 7 6).board 7 5 = 'R'
    rw [hboard]
    simp [boardSet_apply]
  · show (move_piece g1 7 4 7 6).board 7 4 = ' '
    rw [hboard]
    simp [boardSet_apply]
  · show (move_piece g1 7 4 7 6).board 7 7 = ' '
    rw [hboard]
    simp [boardSet_apply]
  · show (move_piece g1 7 4 7 6).castling_rights.white_king_moved = true
    rw [hcr]
  · show (move_piece g1 7 4 7 6).castling_rights.white_kingside =
      g.castling_rights.white_kingside
    rw [hcr]
  · show (move_piece g1 7 4 7 6).castling_rights.white_queenside =
      g.castling_rights.white_queenside
    rw [hcr]

/-- C1 counterexample to the claim as stated: in the concrete cleared-kingside
position, after selecting the king and clicking (7,6) the two White castling
right flags are NOT both false (they both remain true). -/
theorem c1_castling_as_stated_ce :
    ¬(((handle_click castle_test 7 4).bind fun g1 => handle_click g1 7 6).map
        (fun g2 => (g2.castling_rights.white_kingside,
          g2.castling_rights.white_queenside)) =
      some (false, false)) := by decide

/-- C1 witness: the amended theorem instantiated at the concrete
cleared-kingside position. -/
theorem c1_castling_amended_witness :
    ∃ g1 g2, handle_click castle_test 7 4 = some g1 ∧
      handle_click g1 7 6 = some g2 ∧
      g2.board 7 6 = 'K' ∧ g2.board 7 5 = 'R' ∧ g2.board 7 4 = ' ' ∧
      g2.board 7 7 = ' ' ∧
      g2.castling_rights.white_king_moved = true ∧
      g2.castling_rights.white_kingside = castle_test.castling_rights.white_kingside ∧
      g2.castling_rights.white_queenside =
        castle_test.castling_rights.white_queenside ∧
      g2.selected_piece = none :=
  c1_castling_amended castle_test rfl rfl rfl (by decide) (by decide) (by decide)
    (by decide) rfl rfl

end Chess
